import Mathlib

/-!
Verification model of the Cushion library core
(packages/core/src/core.ts and packages/core/src/index.ts).

JavaScript strings are modelled as lists of characters (`Str`); JSON-like
runtime values as the inductive `JValue`, which includes an explicit
`undefined` constructor because the code uses JavaScript `undefined` as its
no-value marker and distinguishes a key present with value `undefined`
from an absent key.
-/

namespace CushionModel

/-- JavaScript string, modelled as its list of characters. -/
abbrev Str := List Char

/-- JSON-like JavaScript runtime value.  `undefined` is JavaScript `undefined`,
the no-value marker of the absorption engine; object fields are kept in
insertion order, as JavaScript objects enumerate them. -/
inductive JValue where
  | null : JValue
  | undefined : JValue
  | bool : Bool → JValue
  | num : Int → JValue
  | str : Str → JValue
  | arr : List JValue → JValue
  | obj : List (Str × JValue) → JValue

/-- JavaScript keyed assignment `o[k] = v` on an insertion-ordered entry
list: overwrites in place if the key exists, otherwise appends.  This is
both object property assignment and `Map.prototype.set` (a `Map` keeps
the original insertion position on overwrite). -/
def setField {α : Type _} (fields : List (Str × α)) (k : Str) (v : α) :
    List (Str × α) :=
  match fields with
  | [] => [(k, v)]
  | (k₀, v₀) :: rest =>
      if k₀ = k then (k, v) :: rest else (k₀, v₀) :: setField rest k v

/-- First-match keyed lookup in an insertion-ordered entry list. -/
def lookupField {α : Type _} (fields : List (Str × α)) (k : Str) :
    Option α :=
  match fields with
  | [] => none
  | (k₀, v₀) :: rest => if k₀ = k then some v₀ else lookupField rest k

/-- JavaScript `s.split(c)` for a single-character separator: every
occurrence splits, empty parts are kept, `"".split(c) = [""]`. -/
def splitChar (c : Char) : Str → List Str
  | [] => [[]]
  | x :: xs =>
      if x = c then [] :: splitChar c xs
      else
        match splitChar c xs with
        | part :: parts => (x :: part) :: parts
        | [] => [[x]]

/-- JavaScript `path.split(".*.")`: split on the literal three-character
separator `.*.`, scanning left to right, non-overlapping, empty parts
kept.  Matches `String.prototype.split` with a string separator. -/
def splitStarSep : Str → List Str
  | [] => [[]]
  | '.' :: '*' :: '.' :: rest => [] :: splitStarSep rest
  | c :: rest =>
      match splitStarSep rest with
      | part :: parts => (c :: part) :: parts
      | [] => [[c]]

theorem splitChar_ne_nil (c : Char) (s : Str) : splitChar c s ≠ [] := by
  induction s with
  | nil => simp [splitChar]
  | cons x xs ih =>
      simp only [splitChar]
      split
      · simp
      · split
        · simp
        · simp

theorem splitStarSep_ne_nil (s : Str) : splitStarSep s ≠ [] := by
  induction s using splitStarSep.induct with
  | case1 => simp [splitStarSep]
  | case2 rest ih => simp [splitStarSep]
  | case3 c rest h part parts heq ih => simp [splitStarSep, heq]
  | case4 c rest h heq ih => exact absurd heq ih

/-- Rejoining the parts of `splitStarSep` with the separator recovers the
original string. -/
theorem splitStarSep_intercalate (s : Str) :
    List.intercalate ['.', '*', '.'] (splitStarSep s) = s := by
  induction s using splitStarSep.induct with
  | case1 => simp [splitStarSep, List.intercalate]
  | case2 rest ih =>
      simp only [splitStarSep]
      obtain ⟨p, ps, hps⟩ := List.exists_cons_of_ne_nil (splitStarSep_ne_nil rest)
      rw [hps] at ih ⊢
      simpa [List.intercalate] using ih
  | case3 c rest h part parts heq ih =>
      simp only [splitStarSep, heq]
      rw [heq] at ih
      cases parts with
      | nil => simpa [List.intercalate] using ih
      | cons q qs =>
          simp only [List.intercalate] at ih ⊢
          simpa using ih
  | case4 c rest h heq ih => exact absurd heq (splitStarSep_ne_nil rest)

/-- When `splitStarSep` returns exactly two parts, the source string is the
two parts joined by one `.*.` separator. -/
theorem splitStarSep_two {s a b : Str} (h : splitStarSep s = [a, b]) :
    s = a ++ '.' :: '*' :: '.' :: b := by
  have h₀ := splitStarSep_intercalate s
  rw [h] at h₀
  simpa [List.intercalate] using h₀.symm

theorem splitStarSep_two_length_left {s a b : Str}
    (h : splitStarSep s = [a, b]) : a.length < s.length := by
  have h₀ := splitStarSep_two h
  subst h₀
  simp only [List.length_append, List.length_cons]
  omega

theorem splitStarSep_two_length_right {s a b : Str}
    (h : splitStarSep s = [a, b]) : b.length < s.length := by
  have h₀ := splitStarSep_two h
  subst h₀
  simp only [List.length_append, List.length_cons]
  omega

/-- Digits of a decimal numeral folded into a natural number; models
`Number.parseInt(s, 10)` on an all-digit string (leading zeros allowed). -/
def digitsToNat (s : Str) : Nat :=
  s.foldl (fun n c => n * 10 + (c.toNat - 48)) 0

/-- A canonical JavaScript array-index string: nonempty, all digits, and no
leading zero except for `"0"` itself.  `a["07"]` is a plain property
lookup in JavaScript, not an index access. -/
def isIndexStr (s : Str) : Bool :=
  match s with
  | [] => false
  | ['0'] => true
  | c :: rest => c.isDigit && c ≠ '0' && rest.all Char.isDigit

/-- Matching of a path segment against the regex `^(.+)\[(\d+)\]$` from
`extractNestedValue`: the segment must end in `[digits]` with a nonempty
digit run and a nonempty property name before the bracket.  The
decomposition is unique because the digit run cannot contain `[`, so the
greedy `(.+)` group always stops at the last `[`. -/
def parseArraySeg (seg : Str) : Option (Str × Nat) :=
  match seg.reverse with
  | ']' :: body =>
      let digitsRev := body.takeWhile Char.isDigit
      let rest := body.drop digitsRev.length
      match rest with
      | '[' :: propRev =>
          if digitsRev.isEmpty ∨ propRev.isEmpty then none
          else some (propRev.reverse, digitsToNat digitsRev.reverse)
      | _ => none
  | _ => none

/-- JavaScript property access `current[key]` for the values reachable in
`extractNestedValue` (JSON data): object fields by first match, arrays by
canonical index string or `length`, strings by index or `length`; any
other access yields `undefined`.  Function-valued built-ins (array and
string methods) are not modelled: the traversals in the source only ever
read data properties.  Access on `null`/`undefined` is unreachable in the
source (each fold step guards on them first) and is modelled as
`undefined`. -/
def jsGet (v : JValue) (key : Str) : JValue :=
  match v with
  | .obj fields =>
      match lookupField fields key with
      | some w => w
      | none => .undefined
  | .arr xs =>
      if key = ['l', 'e', 'n', 'g', 't', 'h'] then .num xs.length
      else if isIndexStr key then
        match xs.get? (digitsToNat key) with
        | some w => w
        | none => .undefined
      else .undefined
  | .str s =>
      if key = ['l', 'e', 'n', 'g', 't', 'h'] then .num s.length
      else if isIndexStr key then
        match s.get? (digitsToNat key) with
        | some c => .str [c]
        | none => .undefined
      else .undefined
  | _ => .undefined

/-- One step of the reduce in `extractNestedValue`'s regular dot-notation
branch: short-circuit on `null`/`undefined`, handle the `name[N]` index
form, otherwise plain property access. -/
def dotStep (current : JValue) (key : Str) : JValue :=
  match current with
  | .null => .undefined
  | .undefined => .undefined
  | _ =>
      match parseArraySeg key with
      | some (propName, idx) =>
          match jsGet current propName with
          | .arr xs =>
              match xs.get? idx with
              | some w => w
              | none => .undefined
          | _ => .undefined
      | none => jsGet current key

/-- The regular dot-notation branch of `extractNestedValue`:
`path.split(".").reduce(dotStep, obj)`. -/
def dotReduce (obj : JValue) (path : Str) : JValue :=
  (splitChar '.' path).foldl dotStep obj

/-- Model of `AbsorptionEngine.extractNestedValue(obj, path)`.  If the path contains
a `*` and splits on `.*.` into exactly two parts whose prefix resolves to
an array, the suffix extraction is mapped over the array elements; in
every other case (no `*`, not exactly two parts, or a non-array prefix)
the source falls through to the regular dot-notation reduce over the
whole path. -/
def extractNestedValue (obj : JValue) (path : Str) : JValue :=
  if '*' ∈ path then
    match h : splitStarSep path with
    | [arrayPath, itemPath] =>
        match extractNestedValue obj arrayPath with
        | .arr xs =>
            .arr (xs.map fun item => extractNestedValue item itemPath)
        | _ => dotReduce obj path
    | _ => dotReduce obj path
  else dotReduce obj path
termination_by path.length
decreasing_by
  · exact splitStarSep_two_length_left h
  · exact splitStarSep_two_length_right h

/-- A field instruction of a mapping configuration (`FieldMapping` in
types.ts): either a dotted/indexed/wildcard path string, or a transform
function over the whole source object.  A transform that throws is
modelled as returning `Except.error`. -/
inductive FieldMapping where
  | path : Str → FieldMapping
  | fn : (JValue → Except Unit JValue) → FieldMapping

/-- Model of `MappingConfig`: stable keys to field instructions, in the enumeration
order of `Object.entries`. -/
abbrev MappingConfig := List (Str × FieldMapping)

/-- The loop body of `AbsorptionEngine.absorb` for one mapping entry: a
function instruction is invoked on the whole source object inside
`try`/`catch`, a throw degrading to `undefined`; a path instruction runs
`extractNestedValue`. -/
def runField (data : JValue) : FieldMapping → JValue
  | .fn f =>
      match f data with
      | .ok v => v
      | .error _ => .undefined
  | .path p => extractNestedValue data p

/-- The field-building loop of `absorb` on a non-array object: iterate the
mapping entries in order, assigning `cushioned[stableKey]` each time. -/
def absorbFields (data : JValue) (mapping : MappingConfig) :
    List (Str × JValue) :=
  mapping.foldl (fun acc e => setField acc e.1 (runField data e.2)) []

mutual

/-- Model of `AbsorptionEngine.absorb(data, mapping)`: primitives, `null` and
`undefined` are returned unchanged; arrays are absorbed element-wise;
objects are rebuilt from the mapping's stable keys only. -/
def absorb (data : JValue) (mapping : MappingConfig) : JValue :=
  match data with
  | .null => .null
  | .undefined => .undefined
  | .bool b => .bool b
  | .num n => .num n
  | .str s => .str s
  | .arr xs => .arr (absorbList xs mapping)
  | .obj o => .obj (absorbFields (.obj o) mapping)

/-- Element-wise absorption of an array (`data.map(item => absorb(item,
mapping))`). -/
def absorbList (xs : List JValue) (mapping : MappingConfig) : List JValue :=
  match xs with
  | [] => []
  | x :: rest => absorb x mapping :: absorbList rest mapping

end

/-- Model of `CushionRule` from types.ts: primary mapping, optional predicate over
the raw payload, optional fallback mapping. -/
structure CushionRule where
  mapping : CushionModel.MappingConfig
  condition : Option (CushionModel.JValue → Bool)
  fallback : Option CushionModel.MappingConfig

/-- A value stored in the rule registry.  `Cushion.setupCushion` decides by
the untyped check `"mapping" in rule` whether its argument is already a
rule: an actual `CushionRule` (or a wrapped bare mapping) is stored as
`rule`; a bare mapping configuration that happens to contain a stable key
named `mapping` passes that check too and is stored as-is by an unchecked
cast, which `castMapping` records. -/
inductive StoredRule where
  | rule : CushionRule → StoredRule
  | castMapping : CushionModel.MappingConfig → StoredRule

/-- A token of a compiled URL pattern.  `createPatternRegex` escapes every
regex metacharacter except `*` and `:`, so after compilation a character
is either a literal, a `*` wildcard (regex `.*`), or a named parameter
`:name` (regex `(?<name>[^/]+)` — one or more non-slash characters). -/
inductive PatTok where
  | lit : Char → PatTok
  | star : PatTok
  | param : PatTok

/-- The character class `\w` of JavaScript regexes: ASCII letters, digits
and underscore. -/
def isWordChar (c : Char) : Bool :=
  c.isAlphanum || c = '_'

/-- One step of pattern compilation, consuming one source character with
the already-compiled tokens of the remaining suffix to its right.  A `:`
directly followed by a `\w` run becomes a parameter and swallows the run
(which the right fold has already emitted as word-character literals); a
`:` not followed by a word character stays literal, exactly as the regex
replacement `:(\w+)` leaves it untouched. -/
def compileStep (c : Char) (acc : List PatTok) : List PatTok :=
  if c = '*' then .star :: acc
  else if c = ':' then
    match acc with
    | .lit c₀ :: _ =>
        if isWordChar c₀ then
          .param :: acc.dropWhile fun t =>
            match t with
            | .lit d => isWordChar d
            | _ => false
        else .lit ':' :: acc
    | _ => .lit ':' :: acc
  else .lit c :: acc

/-- Model of `CushionManager.createPatternRegex(pattern)` as a token list
instead of a regex value: metacharacter escaping makes every character
literal except `*` (compiled to `.*`) and `:name` (compiled to a
one-segment named group).  The surrounding `^...$` anchors are part of
the matcher below. -/
def createPatternRegex (pattern : CushionModel.Str) : List PatTok :=
  pattern.foldr compileStep []

/-- Acceptance of regex `.*` followed by the rest of the tokens: try the
continuation on every suffix of the input. -/
def anySuffix (p : CushionModel.Str → Bool) : CushionModel.Str → Bool
  | [] => p []
  | c :: rest => p (c :: rest) || anySuffix p rest

/-- Acceptance of the tail of `[^/]+` (that is, `[^/]*`) followed by the
continuation. -/
def paramTail (p : CushionModel.Str → Bool) : CushionModel.Str → Bool
  | [] => p []
  | c :: rest => p (c :: rest) || (!(c = '/') && paramTail p rest)

/-- Anchored matching of a compiled pattern against a string: the regex
`^tokens$` accepts the whole input.  Disjunction over suffixes gives the
standard acceptance semantics of `.*` and `[^/]+`. -/
def patMatch : List PatTok → CushionModel.Str → Bool
  | [], u => u.isEmpty
  | .lit c :: ts, [] => false
  | .lit c :: ts, c₀ :: us => c = c₀ && patMatch ts us
  | .star :: ts, u => anySuffix (patMatch ts) u
  | .param :: ts, [] => false
  | .param :: ts, c :: us => !(c = '/') && paramTail (patMatch ts) us

/-- An entry of `CushionManager.patterns`: the compiled matcher, the rule,
and the original pattern string. -/
structure PatternEntry where
  toks : List PatTok
  rule : StoredRule
  pattern : CushionModel.Str

/-- Stable insertion of a pattern entry coming from the right end of the
array into an already-sorted list: JavaScript's
`sort((a, b) => b.pattern.length - a.pattern.length)` is a stable sort by
descending pattern length, so the new rightmost element lands after every
element of greater or equal length.  Folding this from the right over the
whole array is exactly a stable descending sort. -/
def insertByLen (e : PatternEntry) : List PatternEntry → List PatternEntry
  | [] => [e]
  | x :: xs =>
      if x.pattern.length ≤ e.pattern.length then e :: x :: xs
      else x :: insertByLen e xs

/-- Stable sort of the pattern list by descending pattern-string length,
modelling `Array.prototype.sort` (stable per the ECMAScript spec) with
the comparator from `setCushion`. -/
def sortPatterns (l : List PatternEntry) : List PatternEntry :=
  l.foldr insertByLen []

/-- The state of a `CushionManager`: the `rules` map in insertion order and
the compiled `patterns` array. -/
structure RegistryState where
  rules : List (CushionModel.Str × StoredRule)
  patterns : List PatternEntry

/-- A freshly constructed `CushionManager`. -/
def emptyRegistry : RegistryState := ⟨[], []⟩

/-- Model of `CushionManager.setCushion(urlPattern, rule)`: store under the literal
pattern; if the pattern contains `*` or `:`, additionally push a compiled
entry and re-sort the pattern array.  Note that a re-registration
overwrites the map entry but pushes a second compiled entry. -/
def setCushion (st : RegistryState) (urlPattern : CushionModel.Str)
    (rule : StoredRule) : RegistryState :=
  let rules := CushionModel.setField st.rules urlPattern rule
  if '*' ∈ urlPattern ∨ ':' ∈ urlPattern then
    { rules := rules
      patterns := sortPatterns
        (st.patterns ++ [⟨createPatternRegex urlPattern, rule, urlPattern⟩]) }
  else
    { rules := rules, patterns := st.patterns }

/-- Hexadecimal digit value, for percent-decoding. -/
def hexVal (c : Char) : Option Nat :=
  if c.isDigit then some (c.toNat - 48)
  else if 'a' ≤ c ∧ c ≤ 'f' then some (c.toNat - 87)
  else if 'A' ≤ c ∧ c ≤ 'F' then some (c.toNat - 55)
  else none

/-- The `application/x-www-form-urlencoded` decoding that `URLSearchParams`
applies to each key and value: `+` becomes a space and `%hh` becomes the
character of the byte `hh`; a malformed `%` stays literal.  Multi-byte
UTF-8 percent sequences are modelled byte-wise rather than recombined;
the claims only involve ASCII data, where the two agree. -/
def formDecode : CushionModel.Str → CushionModel.Str
  | [] => []
  | '%' :: h₁ :: h₂ :: rest =>
      match hexVal h₁, hexVal h₂ with
      | some a, some b => Char.ofNat (16 * a + b) :: formDecode rest
      | _, _ => '%' :: formDecode (h₁ :: h₂ :: rest)
  | '+' :: rest => ' ' :: formDecode rest
  | c :: rest => c :: formDecode rest

/-- One `&`-separated piece of a query string, split at its first `=` into
a decoded key/value pair; a piece without `=` gets the empty value. -/
def parsePiece (piece : CushionModel.Str) : CushionModel.Str × CushionModel.Str :=
  let k := piece.takeWhile fun c => !(c = '=')
  match piece.drop k.length with
  | '=' :: v => (formDecode k, formDecode v)
  | _ => (formDecode k, [])

/-- The entry list of `new URLSearchParams(query)`: split on `&`, skip
empty pieces, parse each piece, duplicates kept in order. -/
def parseQueryList (q : CushionModel.Str) :
    List (CushionModel.Str × CushionModel.Str) :=
  (CushionModel.splitChar '&' q).filterMap fun piece =>
    if piece.isEmpty then none else some (parsePiece piece)

/-- Model of `URLSearchParams.prototype.get(k)`: the value of the first entry with
key `k`, or `null` (here `none`). -/
def paramsGet (ps : List (CushionModel.Str × CushionModel.Str))
    (k : CushionModel.Str) : Option CushionModel.Str :=
  match ps with
  | [] => none
  | (k₀, v₀) :: rest => if k₀ = k then some v₀ else paramsGet rest k

/-- Model of `CushionManager.matchesWithQuery(url, pattern)`: split both at `?`
(JavaScript array destructuring of `split` keeps only the first two
parts), require identical paths, then require every key/value pair of the
pattern's query to be the first-occurrence value of that key in the
URL's query.  An absent or empty pattern query (`!patternQuery`) matches
any query. -/
def matchesWithQuery (url pattern : CushionModel.Str) : Bool :=
  let urlParts := CushionModel.splitChar '?' url
  let patternParts := CushionModel.splitChar '?' pattern
  let urlPath := urlParts.headD []
  let patternPath := patternParts.headD []
  if urlPath = patternPath then
    match patternParts.get? 1 with
    | none => true
    | some patternQuery =>
        if patternQuery.isEmpty then true
        else
          let urlParams := parseQueryList ((urlParts.get? 1).getD [])
          let patternParams := parseQueryList patternQuery
          patternParams.all fun kv =>
            decide (paramsGet urlParams kv.1 = some kv.2)
  else false

/-- Model of `CushionManager.getCushion(url)`: exact match in the rules map first;
then the first rules-map entry whose pattern contains `?` and matches the
URL with query subset semantics; then the first compiled pattern (in
sorted order) matching the URL with its query stripped; else none. -/
def getCushion (st : RegistryState) (url : CushionModel.Str) :
    Option StoredRule :=
  match CushionModel.lookupField st.rules url with
  | some r => some r
  | none =>
      let urlWithoutQuery := url.takeWhile fun c => !(c = '?')
      match st.rules.find? fun pr =>
          decide ('?' ∈ pr.1) && matchesWithQuery url pr.1 with
      | some pr => some pr.2
      | none =>
          match st.patterns.find? fun e => patMatch e.toks urlWithoutQuery with
          | some e => some e.rule
          | none => none

/-- The context object `{url, originalData}` passed to absorb hooks. -/
abbrev HookCtx := Str × JValue

/-- An absorb hook (`AbsorbHook` in types.ts); a throw is modelled as
`Except.error`. -/
abbrev AbsorbHook := JValue → MappingConfig → HookCtx → Except Unit JValue

/-- A raw-response hook (`ResponseHook` in types.ts). -/
abbrev ResponseHook := Str → JValue → Except Unit JValue

/-- Model of `PluginEcosystem.executeAbsorbHooks(data, mapping, context)`: left fold
of the registered hooks in registration order, seeded with `data`; a
throwing hook is caught and contributes the previous accumulator
unchanged, so no exception ever escapes. -/
def executeAbsorbHooks (hooks : List AbsorbHook) (data : JValue)
    (mapping : MappingConfig) (context : HookCtx) : JValue :=
  hooks.foldl
    (fun result hook =>
      match hook result mapping context with
      | .ok v => v
      | .error _ => result)
    data

/-- Model of `PluginEcosystem.executeResponseHooks(url, data)`: the same reducing
fold with identity-on-error, the URL passed unchanged to every hook. -/
def executeResponseHooks (hooks : List ResponseHook) (url : Str)
    (data : JValue) : JValue :=
  hooks.foldl
    (fun result hook =>
      match hook url result with
      | .ok v => v
      | .error _ => result)
    data

/-- A reference to a fetch implementation.  Identity is what matters to the
interceptor state machine: `ext n` are ambient implementations installed
by the environment, `wrapper` is the wrapping implementation the
interceptor installs on activation. -/
inductive FetchRef where
  | ext : Nat → FetchRef
  | wrapper : FetchRef
deriving DecidableEq

/-- The mutable fields of a `ShockAbsorber`: the captured `originalFetch`
and the `isActive` flag. -/
structure AbsorberState where
  originalFetch : FetchRef
  isActive : Bool
deriving DecidableEq

/-- The state of the composed `Cushion` façade object: its rule registry
and its shock absorber.  (The absorption engine and plugin ecosystem hold
no state the claims depend on beyond the hook lists, modelled above as
explicit arguments.) -/
structure CushionState where
  manager : RegistryState
  absorber : AbsorberState

/-- The process-wide picture: `globalThis.fetch` plus the global `Cushion`
singleton from index.ts. -/
structure GlobalState where
  ambientFetch : FetchRef
  cushion : CushionState

/-- The `ShockAbsorber` constructor: captures the current ambient fetch and
starts inactive. -/
def mkAbsorber (ambient : FetchRef) : AbsorberState :=
  { originalFetch := ambient, isActive := false }

/-- Model of `ShockAbsorber.activate()` (reached unchanged through
`Cushion.activate`): a no-op when already active; otherwise capture the
current ambient fetch as original, install the wrapper as the ambient
fetch, and become active. -/
def activate (g : GlobalState) : GlobalState :=
  if g.cushion.absorber.isActive then g
  else
    { ambientFetch := .wrapper
      cushion :=
        { manager := g.cushion.manager
          absorber := { originalFetch := g.ambientFetch, isActive := true } } }

/-- Model of `ShockAbsorber.deactivate()`: a no-op when inactive; otherwise restore
the captured original fetch as the ambient fetch and become inactive
(the captured reference itself is not cleared). -/
def deactivate (g : GlobalState) : GlobalState :=
  if g.cushion.absorber.isActive then
    { ambientFetch := g.cushion.absorber.originalFetch
      cushion :=
        { manager := g.cushion.manager
          absorber :=
            { originalFetch := g.cushion.absorber.originalFetch
              isActive := false } } }
  else g

/-- The argument of `Cushion.setupCushion`: a genuine `CushionRule` object
or a bare mapping configuration. -/
inductive RuleOrMapping where
  | rule : CushionRule → RuleOrMapping
  | bare : MappingConfig → RuleOrMapping

/-- The property name `"mapping"`. -/
def mappingKey : Str := ['m', 'a', 'p', 'p', 'i', 'n', 'g']

/-- Whether a bare mapping configuration owns a stable key named
`"mapping"`. -/
def hasMappingKey (m : MappingConfig) : Bool :=
  m.any fun e => decide (e.1 = mappingKey)

/-- The untyped discrimination `"mapping" in rule ? rule : ⟨wrap⟩` in
`Cushion.setupCushion`: a real rule object has a `mapping` property and
is kept; a bare mapping is wrapped — unless it happens to own a key named
`mapping`, in which case the `in` check misfires and the bare mapping is
stored as-is under an unchecked cast. -/
def toStoredRule (input : RuleOrMapping) : StoredRule :=
  match input with
  | .rule r => .rule r
  | .bare m =>
      if hasMappingKey m then .castMapping m
      else .rule { mapping := m, condition := none, fallback := none }

/-- Model of `Cushion.setupCushion(urlPattern, rule)` on the façade: normalise the
argument and delegate to `CushionManager.setCushion`. -/
def cushionSetupCushion (st : CushionState) (urlPattern : Str)
    (input : RuleOrMapping) : CushionState :=
  { st with manager := setCushion st.manager urlPattern (toStoredRule input) }

/-- Model of `Cushion.setupCushions(rules)` on the façade: `setupCushion` for every
entry in order. -/
def cushionSetupCushions (st : CushionState)
    (rules : List (Str × RuleOrMapping)) : CushionState :=
  rules.foldl (fun acc e => cushionSetupCushion acc e.1 e.2) st

/-- Module-level `setupCushion` from index.ts: register on the global
singleton, then activate the interceptor. -/
def setupCushionGlobal (g : GlobalState) (urlPattern : Str)
    (input : RuleOrMapping) : GlobalState :=
  activate { g with cushion := cushionSetupCushion g.cushion urlPattern input }

/-- Module-level `setupCushions` from index.ts: register every rule, then
activate the interceptor. -/
def setupCushionsGlobal (g : GlobalState)
    (rules : List (Str × RuleOrMapping)) : GlobalState :=
  activate { g with cushion := cushionSetupCushions g.cushion rules }

/-! Section: Derived definitions and concrete probe data for the claims -/

/-- Character list of a string literal. -/
def chars (s : String) : Str := s.data

/-- Field access on an absorbed object, for stating the claims. -/
def objGet (v : JValue) (k : Str) : Option JValue :=
  match v with
  | .obj fs => lookupField fs k
  | _ => none

/-- The path part of a URL or pattern: everything before the first `?`. -/
def pathPart (s : Str) : Str := (splitChar '?' s).headD []

/-- The query part: the text between the first and second `?` (destructuring
`split("?")` keeps only index 1), empty when absent. -/
def queryPart (s : Str) : Str := ((splitChar '?' s).get? 1).getD []

/-- Modelled from the spec: the claim's characterisation of query-qualified
matching — identical paths, and every key/value pair of the pattern's
query present with the same (first-occurrence) value in the URL's query,
extra URL parameters allowed. -/
def QuerySubsetSpec (url pattern : Str) : Prop :=
  pathPart url = pathPart pattern ∧
    ∀ kv ∈ parseQueryList (queryPart pattern),
      paramsGet (parseQueryList (queryPart url)) kv.1 = some kv.2

/-- An object whose `A` property is a non-array object owning a literal
`*` property — the probe for the wildcard fallthrough. -/
def wildcardCexObj : JValue :=
  .obj [(['A'], .obj [(['*'], .obj [(['B'], .num 42)])])]

/-- The wildcard path `A.*.B`. -/
def wildcardCexPath : Str := ['A', '.', '*', '.', 'B']

/-- A parameter pattern used to probe re-registration. -/
def reRegPat : Str := chars "/a/:id"

/-- A URL resolved by `reRegPat` only through the compiled pattern list. -/
def reRegUrl : Str := chars "/a/7"

/-- First registered rule. -/
def reRegRule₁ : StoredRule := .rule ⟨[], none, none⟩

/-- Second registered rule, distinct from the first. -/
def reRegRule₂ : StoredRule :=
  .rule ⟨[(['y'], .path ['q'])], none, none⟩

/-- The exact pattern of the C5 example. -/
def exactUserPat : Str := chars "/api/user/123"

/-- The parameter pattern of the C5 example. -/
def paramUserPat : Str := chars "/api/user/:id"

/-- A URL matching only the parameter pattern. -/
def otherUserUrl : Str := chars "/api/user/456"

/-- The query-qualified pattern of the C6 example. -/
def versionPat : Str := chars "/api/user?version=v2"

/-- URL with the required pair plus an extra parameter. -/
def versionUrl₁ : Str := chars "/api/user?version=v2&locale=en"

/-- URL with no query at all. -/
def versionUrl₂ : Str := chars "/api/user"

/-- URL with the wrong value for the required key. -/
def versionUrl₃ : Str := chars "/api/user?version=v1"

/-- An absorb hook that spreads one boolean flag onto the accumulated
object, like `(data) => ({...data, stepN: true})` in the claim's
example. -/
def mergeStep (k : Str) : AbsorbHook := fun data _m _c =>
  .ok
    (match data with
     | .obj fs => .obj (setField fs k (.bool true))
     | _ => .obj [(k, .bool true)])

/-- An absorb hook that always throws. -/
def throwingAbsorbHook : AbsorbHook := fun _ _ _ => .error ()

/-! Section: Helper lemmas -/

theorem extractNestedValue_no_star {obj : JValue} {path : Str}
    (h : '*' ∉ path) : extractNestedValue obj path = dotReduce obj path := by
  rw [extractNestedValue]
  simp [h]

theorem extractNestedValue_two_arr {obj : JValue} {path a b : Str}
    {xs : List JValue} (h₁ : '*' ∈ path) (h₂ : splitStarSep path = [a, b])
    (hxs : extractNestedValue obj a = .arr xs) :
    extractNestedValue obj path =
      .arr (xs.map fun item => extractNestedValue item b) := by
  rw [extractNestedValue]
  rw [if_pos h₁]
  split
  · rename_i arrayPath itemPath heq
    rw [h₂] at heq
    injection heq with e₁ e₂
    injection e₂ with e₂ _
    subst e₁
    subst e₂
    rw [hxs]
  · rename_i hno
    exact (hno a b h₂).elim

theorem extractNestedValue_two_fallthrough {obj : JValue} {path a b : Str}
    (h₁ : '*' ∈ path) (h₂ : splitStarSep path = [a, b])
    (hna : ∀ xs, extractNestedValue obj a ≠ .arr xs) :
    extractNestedValue obj path = dotReduce obj path := by
  rw [extractNestedValue]
  rw [if_pos h₁]
  split
  · rename_i arrayPath itemPath heq
    rw [h₂] at heq
    injection heq with e₁ e₂
    injection e₂ with e₂ _
    subst e₁
    subst e₂
    cases hv : extractNestedValue obj a with
    | arr xs => exact absurd hv (hna xs)
    | null => rfl
    | undefined => rfl
    | bool b => rfl
    | num n => rfl
    | str s => rfl
    | obj o => rfl
  · rfl

theorem mem_keys_setField {α : Type _} (fs : List (Str × α)) (k k₁ : Str)
    (v : α) :
    k₁ ∈ (setField fs k v).map Prod.fst ↔
      k₁ ∈ fs.map Prod.fst ∨ k₁ = k := by
  induction fs with
  | nil =>
      simp only [setField, List.map_cons, List.map_nil, List.mem_singleton,
        List.not_mem_nil, false_or]
  | cons e rest ih =>
      obtain ⟨k₀, v₀⟩ := e
      by_cases h : k₀ = k
      · subst h
        rw [setField, if_pos rfl]
        simp only [List.map_cons, List.mem_cons]
        constructor
        · intro h₁
          rcases h₁ with h₁ | h₁
          · exact Or.inr h₁
          · exact Or.inl (Or.inr h₁)
        · intro h₁
          rcases h₁ with (h₁ | h₁) | h₁
          · exact Or.inl h₁
          · exact Or.inr h₁
          · exact Or.inl h₁
      · rw [setField, if_neg h]
        simp only [List.map_cons, List.mem_cons, ih]
        tauto

theorem lookupField_setField_self {α : Type _} (fs : List (Str × α))
    (k : Str) (v : α) : lookupField (setField fs k v) k = some v := by
  induction fs with
  | nil => rw [setField, lookupField, if_pos rfl]
  | cons e rest ih =>
      obtain ⟨k₀, v₀⟩ := e
      by_cases h : k₀ = k
      · subst h
        rw [setField, if_pos rfl, lookupField, if_pos rfl]
      · rw [setField, if_neg h, lookupField, if_neg h]
        exact ih

theorem lookupField_setField_ne {α : Type _} (fs : List (Str × α))
    (k k₁ : Str) (v : α) (h : k₁ ≠ k) :
    lookupField (setField fs k v) k₁ = lookupField fs k₁ := by
  induction fs with
  | nil =>
      simp only [setField, lookupField]
      rw [if_neg (Ne.symm h)]
  | cons e rest ih =>
      obtain ⟨k₀, v₀⟩ := e
      by_cases h₀ : k₀ = k
      · subst h₀
        rw [setField, if_pos rfl]
        simp only [lookupField]
        rw [if_neg (Ne.symm h), if_neg (Ne.symm h)]
      · rw [setField, if_neg h₀]
        simp only [lookupField]
        by_cases h₁ : k₀ = k₁
        · rw [if_pos h₁, if_pos h₁]
        · rw [if_neg h₁, if_neg h₁]
          exact ih

/-- The absorb field-building fold only ever adds keys of the mapping. -/
theorem mem_keys_absorbFold (data : JValue) (m : MappingConfig)
    (acc : List (Str × JValue)) (k : Str) :
    k ∈ ((m.foldl (fun a e => setField a e.1 (runField data e.2)) acc).map
        Prod.fst) ↔
      k ∈ acc.map Prod.fst ∨ k ∈ m.map Prod.fst := by
  induction m generalizing acc with
  | nil =>
      simp only [List.foldl_nil, List.map_nil, List.not_mem_nil, or_false]
  | cons e rest ih =>
      simp only [List.foldl_cons, ih, mem_keys_setField, List.map_cons,
        List.mem_cons]
      tauto

/-- Keys the fold never writes keep their accumulator value. -/
theorem lookupField_absorbFold_not_mem (data : JValue) (m : MappingConfig)
    (acc : List (Str × JValue)) (k : Str) (h : k ∉ m.map Prod.fst) :
    lookupField
        (m.foldl (fun a e => setField a e.1 (runField data e.2)) acc) k =
      lookupField acc k := by
  induction m generalizing acc with
  | nil => simp only [List.foldl_nil]
  | cons e rest ih =>
      simp only [List.map_cons, List.mem_cons] at h
      push_neg at h
      simp only [List.foldl_cons]
      rw [ih _ h.2, lookupField_setField_ne acc e.1 k (runField data e.2) h.1]

/-- Two accumulators that agree on every key other than `k` keep agreeing
on those keys through the absorb fold. -/
theorem lookupField_absorbFold_agree (data : JValue) (m : MappingConfig)
    (acc₁ acc₂ : List (Str × JValue)) (k : Str)
    (h : ∀ k₁, k₁ ≠ k → lookupField acc₁ k₁ = lookupField acc₂ k₁) :
    ∀ k₁, k₁ ≠ k →
      lookupField
          (m.foldl (fun a e => setField a e.1 (runField data e.2)) acc₁) k₁ =
        lookupField
          (m.foldl (fun a e => setField a e.1 (runField data e.2)) acc₂) k₁ := by
  induction m generalizing acc₁ acc₂ with
  | nil => exact h
  | cons e rest ih =>
      simp only [List.foldl_cons]
      refine ih _ _ ?_
      intro k₁ hk₁
      by_cases he : k₁ = e.1
      · subst he
        rw [lookupField_setField_self, lookupField_setField_self]
      · rw [lookupField_setField_ne _ _ _ _ he,
          lookupField_setField_ne _ _ _ _ he]
        exact h k₁ hk₁

/-! Section: Claim C3 -/

/-- C3 — Output shape stability: on any non-null, non-array object input,
the own keys of `absorb(data, mapping)` are exactly the stable keys of
the mapping; failed extractions are present with the no-value marker
rather than omitted, and no key of the input leaks through. -/
theorem absorb_shape_stability (o : List (Str × JValue))
    (m : MappingConfig) :
    ∃ fields, absorb (.obj o) m = .obj fields ∧
      ∀ k, k ∈ fields.map Prod.fst ↔ k ∈ m.map Prod.fst := by
  refine ⟨absorbFields (.obj o) m, rfl, ?_⟩
  intro k
  rw [absorbFields, mem_keys_absorbFold]
  simp only [List.map_nil, List.not_mem_nil, false_or]

/-! Section: Claim C4 -/

/-- C4 — Engine totality and per-field isolation: `absorb` is a total
function of the source value (its only throw sites, the transform
functions, are wrapped in `try`/`catch`), a field whose transform throws
comes out as the no-value marker, and the result at every other stable
key is unchanged whatever instruction — throwing or not — sits at the
failing key. -/
theorem absorb_total_isolated (o : List (Str × JValue))
    (m₁ m₂ : MappingConfig) (k : Str) (f : JValue → Except Unit JValue)
    (i₂ : FieldMapping) (hthrow : f (.obj o) = .error ())
    (hlast : k ∉ m₂.map Prod.fst) :
    objGet (absorb (.obj o) (m₁ ++ (k, .fn f) :: m₂)) k = some .undefined ∧
      ∀ k₁, k₁ ≠ k →
        objGet (absorb (.obj o) (m₁ ++ (k, .fn f) :: m₂)) k₁ =
          objGet (absorb (.obj o) (m₁ ++ (k, i₂) :: m₂)) k₁ := by
  have hrun : runField (.obj o) (.fn f) = .undefined := by
    simp [runField, hthrow]
  constructor
  · show lookupField (absorbFields (.obj o) (m₁ ++ (k, .fn f) :: m₂)) k = _
    rw [absorbFields, List.foldl_append, List.foldl_cons, hrun,
      lookupField_absorbFold_not_mem _ _ _ _ hlast,
      lookupField_setField_self]
  · intro k₁ hk₁
    show lookupField (absorbFields (.obj o) (m₁ ++ (k, .fn f) :: m₂)) k₁ =
      lookupField (absorbFields (.obj o) (m₁ ++ (k, i₂) :: m₂)) k₁
    rw [absorbFields, absorbFields, List.foldl_append, List.foldl_append,
      List.foldl_cons, List.foldl_cons]
    refine lookupField_absorbFold_agree _ _ _ _ k ?_ k₁ hk₁
    intro k₂ hk₂
    rw [lookupField_setField_ne _ _ _ _ hk₂, lookupField_setField_ne _ _ _ _ hk₂]

/-- Witness for C4 at a concrete throwing transform. -/
theorem absorb_total_isolated_witness :
    objGet
        (absorb (.obj [])
          [(['a'], .fn fun _ => .error ())]) ['a'] = some .undefined := by
  have h := absorb_total_isolated [] [] [] ['a']
    (fun _ => .error ()) (.path []) rfl (by simp)
  simpa using h.1

/-! Section: Claim C2 -/

/-- C2 counterexample: on the path `A.*.B` with a prefix `A` that resolves
to a non-array object, `extractNestedValue` is not the no-value marker —
the source falls through to plain dot traversal, which here walks a
literal `*` property and produces `42`. -/
theorem extract_wildcard_nonarray_cex :
    extractNestedValue wildcardCexObj ['A'] =
        .obj [(['*'], .obj [(['B'], .num 42)])] ∧
      extractNestedValue wildcardCexObj wildcardCexPath = .num 42 ∧
      JValue.num 42 ≠ .undefined := by
  have h₁ : extractNestedValue wildcardCexObj ['A'] =
      .obj [(['*'], .obj [(['B'], .num 42)])] := by
    rw [extractNestedValue_no_star (by decide)]
    rfl
  refine ⟨h₁, ?_, fun h => JValue.noConfusion h⟩
  rw [@extractNestedValue_two_fallthrough wildcardCexObj wildcardCexPath
    ['A'] ['B'] (by decide) (by decide)
    (fun xs hxs => by rw [h₁] at hxs; exact JValue.noConfusion hxs)]
  rfl

/-- C2 (amended): for a path of the form `A.*.B` (exactly one wildcard
separator), when the prefix `A` does not resolve to an array the
extraction is not unconditionally the no-value marker; instead it falls
through to the plain dot-notation traversal of the whole path, with `*`
acting as a literal property name. -/
theorem extract_wildcard_nonarray_falls_through (obj : JValue)
    (path a b : Str) (h₁ : '*' ∈ path) (h₂ : splitStarSep path = [a, b])
    (hna : ∀ xs, extractNestedValue obj a ≠ .arr xs) :
    extractNestedValue obj path = dotReduce obj path :=
  extractNestedValue_two_fallthrough h₁ h₂ hna

/-- Witness for the amended C2 at a concrete non-array prefix. -/
theorem extract_wildcard_nonarray_falls_through_witness :
    extractNestedValue (.obj []) wildcardCexPath =
      dotReduce (.obj []) wildcardCexPath :=
  extract_wildcard_nonarray_falls_through (.obj []) wildcardCexPath
    ['A'] ['B'] (by decide) (by decide)
    (fun xs hxs => by
      rw [extractNestedValue_no_star (by decide)] at hxs
      have h₀ : dotReduce (.obj []) ['A'] = .undefined := rfl
      rw [h₀] at hxs
      exact JValue.noConfusion hxs)

/-! Section: Claims C1 and C5 — rule registry resolution -/

/-- C1, evaluated at the failing input: after registering `r1` and then
`r2` under the same parameter pattern, the exact lookup of the pattern
string itself serves `r2` (the map entry is overwritten), but a URL
resolved through the compiled pattern list still serves the stale `r1`:
re-registration pushes a second compiled entry and the stable
length-sort keeps the older equal-length entry in front. -/
theorem setCushion_rereg_pattern_stale :
    getCushion (setCushion (setCushion emptyRegistry reRegPat reRegRule₁)
        reRegPat reRegRule₂) reRegPat = some reRegRule₂ ∧
      getCushion (setCushion (setCushion emptyRegistry reRegPat reRegRule₁)
        reRegPat reRegRule₂) reRegUrl = some reRegRule₁ ∧
      reRegRule₁ ≠ reRegRule₂ := by
  refine ⟨rfl, rfl, ?_⟩
  simp [reRegRule₁, reRegRule₂]

/-- C5 — Registry specificity: an exact-literal hit in the rules map is
always served before any compiled pattern, and on the concrete pair of
registrations from the claim, `/api/user/123` resolves to the exact rule
while `/api/user/456` resolves to the parameter rule. -/
theorem registry_specificity :
    (∀ (st : RegistryState) (url : Str) (r : StoredRule),
        lookupField st.rules url = some r → getCushion st url = some r) ∧
      ∀ rE rP : StoredRule,
        getCushion (setCushion (setCushion emptyRegistry exactUserPat rE)
            paramUserPat rP) exactUserPat = some rE ∧
          getCushion (setCushion (setCushion emptyRegistry exactUserPat rE)
            paramUserPat rP) otherUserUrl = some rP := by
  constructor
  · intro st url r h
    unfold getCushion
    rw [h]
  · intro rE rP
    exact ⟨rfl, rfl⟩

/-- Witness for C5's universally quantified exact-priority component at a
concrete registry. -/
theorem registry_specificity_witness :
    getCushion (setCushion emptyRegistry ['k'] (.castMapping [])) ['k'] =
      some (.castMapping []) :=
  registry_specificity.1 (setCushion emptyRegistry ['k'] (.castMapping []))
    ['k'] (.castMapping []) rfl

/-! Section: Claim C6 — query subset matching -/

/-- Unfolding of `matchesWithQuery` in terms of `pathPart`, `queryPart` and
the query parser; definitionally equal to the source shape. -/
theorem matchesWithQuery_unfold (url pattern : Str) :
    matchesWithQuery url pattern =
      (if pathPart url = pathPart pattern then
        match (splitChar '?' pattern).get? 1 with
        | none => true
        | some pq =>
            if pq.isEmpty = true then true
            else
              (parseQueryList pq).all fun kv =>
                decide
                  (paramsGet (parseQueryList (queryPart url)) kv.1 =
                    some kv.2)
      else false) := rfl

/-- C6 — Query subset matching: `matchesWithQuery` holds exactly when the
paths coincide and every key/value pair of the pattern's query is the
URL query's value for that key (the URL may carry extra parameters); on
the registered rule of the claim's example, the URL with an extra
`locale` parameter resolves to the rule while the query-less URL and the
wrong-version URL resolve to nothing. -/
theorem query_subset_matching :
    (∀ url pattern : Str,
        matchesWithQuery url pattern = true ↔ QuerySubsetSpec url pattern) ∧
      ∀ r : StoredRule,
        getCushion (setCushion emptyRegistry versionPat r) versionUrl₁ =
            some r ∧
          getCushion (setCushion emptyRegistry versionPat r) versionUrl₂ =
            none ∧
          getCushion (setCushion emptyRegistry versionPat r) versionUrl₃ =
            none := by
  constructor
  · intro url pattern
    rw [matchesWithQuery_unfold]
    by_cases hp : pathPart url = pathPart pattern
    · rw [if_pos hp]
      cases hq : (splitChar '?' pattern).get? 1 with
      | none =>
          refine ⟨fun _ => ⟨hp, ?_⟩, fun _ => rfl⟩
          intro kv hkv
          rw [queryPart, hq] at hkv
          rw [show parseQueryList ((none : Option Str).getD []) = []
            from rfl] at hkv
          exact absurd hkv (List.not_mem_nil kv)
      | some pq =>
          show (if pq.isEmpty = true then true
              else
                (parseQueryList pq).all fun kv =>
                  decide
                    (paramsGet (parseQueryList (queryPart url)) kv.1 =
                      some kv.2)) = true ↔
            QuerySubsetSpec url pattern
          by_cases hpe : pq.isEmpty = true
          · rw [if_pos hpe]
            have hnil : pq = [] := by
              cases pq with
              | nil => rfl
              | cons c cs => exact absurd hpe (by simp [List.isEmpty])
            subst hnil
            refine ⟨fun _ => ⟨hp, ?_⟩, fun _ => rfl⟩
            intro kv hkv
            rw [queryPart, hq] at hkv
            rw [show parseQueryList ((some ([] : Str)).getD []) = []
              from rfl] at hkv
            exact absurd hkv (List.not_mem_nil kv)
          · rw [if_neg hpe]
            rw [List.all_eq_true]
            constructor
            · intro h
              refine ⟨hp, ?_⟩
              intro kv hkv
              rw [queryPart, hq] at hkv
              have h₀ := h kv (by simpa using hkv)
              simpa using h₀
            · intro h kv hkv
              have h₀ := h.2 kv (by rw [queryPart, hq]; simpa using hkv)
              simpa using h₀
    · rw [if_neg hp]
      exact ⟨fun h => absurd h (by simp), fun h => absurd h.1 hp⟩
  · intro r
    exact ⟨rfl, rfl, rfl⟩

/-! Section: Claim C7 — hook folds with identity on error -/

/-- C7 — Reducing hook chains fold with identity on error: a hook that
throws at its position in the chain contributes nothing — the fold
continues from the previous accumulator, as if the hook were deleted —
for both absorb hooks and response hooks, and no exception escapes the
execute call (the fold is a total function); the three-step merge example
from the claim produces the merged object. -/
theorem hook_fold_identity_on_error :
    (∀ (pre post : List AbsorbHook) (bad : AbsorbHook) (data : JValue)
        (mapping : MappingConfig) (context : HookCtx),
        bad (executeAbsorbHooks pre data mapping context) mapping context =
            .error () →
          executeAbsorbHooks (pre ++ bad :: post) data mapping context =
            executeAbsorbHooks (pre ++ post) data mapping context) ∧
      (∀ (pre post : List ResponseHook) (bad : ResponseHook) (url : Str)
          (data : JValue),
          bad url (executeResponseHooks pre url data) = .error () →
            executeResponseHooks (pre ++ bad :: post) url data =
              executeResponseHooks (pre ++ post) url data) ∧
      executeAbsorbHooks
          [mergeStep (chars "step1"), mergeStep (chars "step2"),
            mergeStep (chars "step3")]
          (.obj []) [] (([], .null)) =
        .obj [(chars "step1", .bool true), (chars "step2", .bool true),
          (chars "step3", .bool true)] := by
  refine ⟨?_, ?_, rfl⟩
  · intro pre post bad data mapping context h
    simp only [executeAbsorbHooks] at h ⊢
    rw [List.foldl_append, List.foldl_append, List.foldl_cons]
    rw [h]
  · intro pre post bad url data h
    simp only [executeResponseHooks] at h ⊢
    rw [List.foldl_append, List.foldl_append, List.foldl_cons]
    rw [h]

/-- Witness for C7: a throwing hook in front of a merge hook leaves the
fold exactly as if only the merge hook ran. -/
theorem hook_fold_identity_on_error_witness :
    executeAbsorbHooks [throwingAbsorbHook, mergeStep (chars "step1")]
        (.obj []) [] (([], .null)) =
      executeAbsorbHooks [mergeStep (chars "step1")] (.obj [])
        [] (([], .null)) :=
  hook_fold_identity_on_error.1 [] [mergeStep (chars "step1")]
    throwingAbsorbHook (.obj []) [] (([], .null)) rfl

/-! Section: Claim C8 — interceptor activation state machine -/

/-- C8 — Interceptor activation state machine: activation on an active
interceptor is a literal no-op; activation on an inactive one captures
the ambient fetch of that moment and installs the wrapper; deactivation
on an inactive interceptor is a no-op; deactivation on an active one
restores exactly the reference captured at the most recent activation;
consequently activate-then-deactivate from an inactive state restores
the ambient fetch in place before activation. -/
theorem shock_absorber_state_machine (g : GlobalState) :
    (g.cushion.absorber.isActive = true → activate g = g) ∧
      (g.cushion.absorber.isActive = false →
        (activate g).ambientFetch = .wrapper ∧
          (activate g).cushion.absorber.originalFetch = g.ambientFetch ∧
          (activate g).cushion.absorber.isActive = true) ∧
      (g.cushion.absorber.isActive = false → deactivate g = g) ∧
      (g.cushion.absorber.isActive = true →
        (deactivate g).ambientFetch = g.cushion.absorber.originalFetch ∧
          (deactivate g).cushion.absorber.isActive = false) ∧
      (g.cushion.absorber.isActive = false →
        (deactivate (activate g)).ambientFetch = g.ambientFetch) := by
  refine ⟨?_, ?_, ?_, ?_, ?_⟩ <;> intro h <;>
    simp [activate, deactivate, h]

/-- Witness for C8 at a concrete inactive state. -/
theorem shock_absorber_state_machine_witness :
    (deactivate (activate
        ⟨.ext 0, ⟨emptyRegistry, mkAbsorber (.ext 7)⟩⟩)).ambientFetch =
      FetchRef.ext 0 :=
  (shock_absorber_state_machine
    ⟨.ext 0, ⟨emptyRegistry, mkAbsorber (.ext 7)⟩⟩).2.2.2.2 rfl

/-! Section: Claim C9 — bare-mapping shorthand -/

/-- C9 (amended) — Bare-mapping shorthand: a bare mapping configuration
that does not itself own a stable key named `mapping` is wrapped into the
rule with that mapping as primary, no condition and no fallback, exactly
as if the wrapped rule had been passed; the stored rule under the pattern
is that wrapped rule. -/
theorem setup_bare_mapping_shorthand (st : CushionState) (p : Str)
    (m : MappingConfig) (h : hasMappingKey m = false) :
    cushionSetupCushion st p (.bare m) =
        cushionSetupCushion st p
          (.rule { mapping := m, condition := none, fallback := none }) ∧
      lookupField (cushionSetupCushion st p (.bare m)).manager.rules p =
        some (.rule { mapping := m, condition := none, fallback := none }) := by
  have ht : toStoredRule (.bare m) =
      .rule { mapping := m, condition := none, fallback := none } := by
    rw [toStoredRule, h]
    simp
  constructor
  · rw [cushionSetupCushion, cushionSetupCushion, ht, toStoredRule]
  · rw [cushionSetupCushion]
    show lookupField (setCushion st.manager p (toStoredRule (.bare m))).rules
      p = _
    rw [ht, setCushion]
    split
    · exact lookupField_setField_self _ _ _
    · exact lookupField_setField_self _ _ _

/-- Witness for C9 on a concrete bare mapping without a `mapping` key. -/
theorem setup_bare_mapping_shorthand_witness :
    lookupField
        (cushionSetupCushion ⟨emptyRegistry, mkAbsorber (.ext 0)⟩ ['u']
          (.bare [(['n'], .path ['m'])])).manager.rules ['u'] =
      some (.rule
          { mapping := [(['n'], .path ['m'])], condition := none,
            fallback := none }) :=
  (setup_bare_mapping_shorthand ⟨emptyRegistry, mkAbsorber (.ext 0)⟩ ['u']
    [(['n'], .path ['m'])] rfl).2

/-- C9 counterexample: a bare mapping that owns a stable key named
`mapping` — a valid mapping configuration that is not a `CushionRule`,
since its `mapping` property is a field instruction — is stored as-is by
the unchecked cast, not wrapped. -/
theorem setup_bare_mapping_shorthand_cex :
    lookupField
        (cushionSetupCushion ⟨emptyRegistry, mkAbsorber (.ext 0)⟩ ['u']
          (.bare [(mappingKey, .path ['x'])])).manager.rules ['u'] =
        some (.castMapping [(mappingKey, .path ['x'])]) ∧
      StoredRule.castMapping [(mappingKey, .path ['x'])] ≠
        .rule
          { mapping := [(mappingKey, .path ['x'])], condition := none,
            fallback := none } :=
  ⟨rfl, fun h => StoredRule.noConfusion h⟩

/-! Section: Claim C10 — setup activates the interceptor -/

/-- The façade-level batch registration touches only the rule manager,
never the absorber. -/
theorem cushionSetupCushions_absorber (st : CushionState)
    (rs : List (Str × RuleOrMapping)) :
    (cushionSetupCushions st rs).absorber = st.absorber := by
  rw [cushionSetupCushions]
  induction rs generalizing st with
  | nil => rfl
  | cons e rest ih =>
      rw [List.foldl_cons]
      exact ih (cushionSetupCushion st e.1 e.2)

/-- C10 — the module-level `setupCushion` and `setupCushions` activate the
global interceptor as a side effect: after any such call the absorber is
active, and when it was inactive beforehand the process-wide ambient
fetch has been replaced by the wrapping implementation, the previous
ambient fetch captured as original — all without any explicit
`activate()` call by the user. -/
theorem setup_cushion_activates (g : GlobalState) (p : Str)
    (input : RuleOrMapping) (rs : List (Str × RuleOrMapping)) :
    (setupCushionGlobal g p input).cushion.absorber.isActive = true ∧
      (g.cushion.absorber.isActive = false →
        (setupCushionGlobal g p input).ambientFetch = .wrapper ∧
          (setupCushionGlobal g p input).cushion.absorber.originalFetch =
            g.ambientFetch) ∧
      (setupCushionsGlobal g rs).cushion.absorber.isActive = true ∧
      (g.cushion.absorber.isActive = false →
        (setupCushionsGlobal g rs).ambientFetch = .wrapper) := by
  have habs₂ := cushionSetupCushions_absorber g.cushion rs
  refine ⟨?_, ?_, ?_, ?_⟩
  · rw [setupCushionGlobal, activate]
    split
    · rename_i hact
      exact hact
    · rfl
  · intro h
    rw [setupCushionGlobal, activate]
    split
    · rename_i hact
      have h₁ : g.cushion.absorber.isActive = true := hact
      exact absurd (h₁.symm.trans h) (by simp)
    · exact ⟨rfl, rfl⟩
  · rw [setupCushionsGlobal, activate]
    split
    · rename_i hact
      exact hact
    · rfl
  · intro h
    rw [setupCushionsGlobal, activate]
    split
    · rename_i hact
      have h₁ : g.cushion.absorber.isActive = true := by
        rw [← habs₂]
        exact hact
      exact absurd (h₁.symm.trans h) (by simp)
    · rfl

/-- Witness for C10 at a concrete inactive global state. -/
theorem setup_cushion_activates_witness :
    (setupCushionGlobal ⟨.ext 3, ⟨emptyRegistry, mkAbsorber (.ext 3)⟩⟩
        ['u'] (.bare [])).ambientFetch = FetchRef.wrapper :=
  ((setup_cushion_activates ⟨.ext 3, ⟨emptyRegistry, mkAbsorber (.ext 3)⟩⟩
    ['u'] (.bare []) []).2.1 rfl).1

end CushionModel
